/-
Verification of the orchestration core of the AI_Novel_Writer repository.

The development shallowly embeds, in Lean 4, the parts of the Python code
under `src/novel_writer/` that the checked claims talk about:

* `APIKeyManager` (src/novel_writer/config/llm.py): credential rotation
  and failover between the free ("primary") and paid ("secondary") pools.
* `LLMConfig.get_completion` and `BaseAgent._get_llm_response`
  (config/llm.py, agents/base_agent.py): the outbound-request path.
* `CriticAgent._parse_evaluation` (agents/critic_agent.py): the score-line
  parser producing evaluation records.
* `PitchGeneratorAgent._parse_pitches_response`
  (agents/pitch_generator_agent.py): the pitch parser with its sentinel
  defaults and validity gate.
* `FacilitatorAgent` (agents/facilitator_agent.py): the workflow state
  machine (`generate_idea`), the pitch-improvement threshold and the
  winner-resolution logic, together with `VoterAgent._select_fallback_winner`.

Python dicts are modelled as insertion-ordered association lists, Python
floats as rationals, raised exceptions as `Except String`, and the external
text-generation service as an explicit oracle argument.
-/
import Mathlib

set_option linter.unusedVariables false

namespace NovelWriter

/-- Exceptions are modelled with `Except`; equality of results is decidable. -/
instance exceptDecidableEq {ε α : Type} [DecidableEq ε] [DecidableEq α] :
    DecidableEq (Except ε α) := fun x y =>
  match x, y with
  | .ok a, .ok b =>
      if h : a = b then isTrue (by rw [h]) else isFalse (fun hc => by cases hc; exact h rfl)
  | .error a, .error b =>
      if h : a = b then isTrue (by rw [h]) else isFalse (fun hc => by cases hc; exact h rfl)
  | .ok _, .error _ => isFalse (fun hc => by cases hc)
  | .error _, .ok _ => isFalse (fun hc => by cases hc)

/-! ### Association-list helpers (Python `dict` with insertion order) -/

/-- Lookup in an insertion-ordered association list (first matching key). -/
def alistLookup {β : Type} (k : String) : List (String × β) → Option β
  | [] => none
  | (k', v) :: rest => if k' = k then some v else alistLookup k rest

/-- `d.get(k, dflt)` on a Python dict. -/
def alistGetD {β : Type} (k : String) (dflt : β) (l : List (String × β)) : β :=
  (alistLookup k l).getD dflt

/-- `d[k] = v` on a Python dict: update in place if the key exists,
otherwise append (insertion order preserved). -/
def alistInsert {β : Type} (k : String) (v : β) : List (String × β) → List (String × β)
  | [] => [(k, v)]
  | (k', v') :: rest =>
      if k' = k then (k', v) :: rest else (k', v') :: alistInsert k v rest

/-- Remove the entries with the given key. -/
def alistErase {β : Type} (k : String) : List (String × β) → List (String × β)
  | [] => []
  | (k', v') :: rest =>
      if k' = k then alistErase k rest else (k', v') :: alistErase k rest

/-! ### `APIKeyManager` (src/novel_writer/config/llm.py)

State of the key manager.  `exhausted_keys` is a Python `set`; it is
modelled as a duplicate-free list (insertion ignores duplicates and the
operations only test membership or clear the whole set). -/

structure KMState where
  free_keys : List String
  paid_keys : List String
  current_key_index : Nat
  using_free_keys : Bool
  exhausted_keys : List String
  deriving Repr, DecidableEq

/-- `APIKeyManager.__init__`. -/
def KMState.init : KMState :=
  { free_keys := [], paid_keys := [], current_key_index := 0,
    using_free_keys := true, exhausted_keys := [] }

/-- `set.add` (ignore duplicates). -/
def setAdd (k : String) (s : List String) : List String :=
  if k ∈ s then s else s ++ [k]

/-- `APIKeyManager.add_free_key`: `if key and key not in self.free_keys`. -/
def addFreeKey (key : String) (st : KMState) : KMState :=
  if key ≠ "" ∧ key ∉ st.free_keys then
    { st with free_keys := st.free_keys ++ [key] }
  else st

/-- `APIKeyManager.add_paid_key`. -/
def addPaidKey (key : String) (st : KMState) : KMState :=
  if key ≠ "" ∧ key ∉ st.paid_keys then
    { st with paid_keys := st.paid_keys ++ [key] }
  else st

/-- `APIKeyManager.get_current_key`, the `acquire` operation of the spec.
Returns `(api_key, is_free_tier)` together with the successor state, or an
error when no keys are configured.  NOTE (faithful to the source): the
returned key is `keys_list[current_key_index % len(keys_list)]` whatever
its exhausted flag says, the cursor is *not* advanced, and when every key
of the active list is exhausted the whole `exhausted_keys` set is cleared
before indexing. -/
def getCurrentKey (st : KMState) : Except String (String × Bool × KMState) :=
  -- choose the active list, possibly performing the one-way free → paid switch
  if st.using_free_keys ∧ st.free_keys ≠ [] then
    let keys := st.free_keys
    let st1 := st
    let st2 := if keys.all (· ∈ st1.exhausted_keys) then
        { st1 with exhausted_keys := [] } else st1
    .ok (keys.getD (st2.current_key_index % keys.length) "", true, st2)
  else if st.paid_keys ≠ [] then
    let keys := st.paid_keys
    let st1 := if st.using_free_keys then
        { st with using_free_keys := false, current_key_index := 0 } else st
    let st2 := if keys.all (· ∈ st1.exhausted_keys) then
        { st1 with exhausted_keys := [] } else st1
    .ok (keys.getD (st2.current_key_index % keys.length) "", false, st2)
  else
    .error "No API keys available"

/-- `APIKeyManager.rotate_key`. -/
def rotateKey (st : KMState) : KMState :=
  if st.using_free_keys ∧ st.free_keys ≠ [] then
    let st1 := { st with current_key_index := (st.current_key_index + 1) % st.free_keys.length }
    if st1.free_keys.all (· ∈ st1.exhausted_keys) then
      { st1 with using_free_keys := false, current_key_index := 0 }
    else st1
  else if st.paid_keys ≠ [] then
    { st with current_key_index := (st.current_key_index + 1) % st.paid_keys.length }
  else st

/-- `APIKeyManager.mark_key_exhausted`, the `reportExhausted` operation. -/
def markKeyExhausted (key : String) (st : KMState) : KMState :=
  rotateKey { st with exhausted_keys := setAdd key st.exhausted_keys }

/-- Scenario state: a manager with 2 free keys and 1 paid key. -/
def kmDemo0 : KMState := addPaidKey "p1" (addFreeKey "f2" (addFreeKey "f1" KMState.init))

/-- Scenario state after both free keys are reported exhausted. -/
def kmDemo1 : KMState := markKeyExhausted "f2" (markKeyExhausted "f1" kmDemo0)

/-- Two-free-key manager, used to exercise the rotation behaviour. -/
def kmDemoB : KMState := addFreeKey "f2" (addFreeKey "f1" KMState.init)

/-! ### String helpers mirroring the Python string methods -/

/-- Python `\s` on ASCII text (space, tab, newline, carriage return,
vertical tab, form feed). -/
def isPySpace (c : Char) : Bool :=
  c = ' ' ∨ c = '\t' ∨ c = '\n' ∨ c = '\r' ∨ c = Char.ofNat 11 ∨ c = Char.ofNat 12

/-- `str.strip()` on a character list. -/
def stripL (l : List Char) : List Char :=
  ((l.dropWhile isPySpace).reverse.dropWhile isPySpace).reverse

/-- `str.strip()`. -/
def stripS (s : String) : String := String.mk (stripL s.toList)

/-- `str.startswith(pre)`. -/
def strStartsWith (pre s : String) : Bool := pre.toList.isPrefixOf s.toList

/-- `str.endswith(suf)`. -/
def strEndsWith (suf s : String) : Bool := suf.toList.isSuffixOf s.toList

/-- Substring test on character lists (`needle in hay` in Python). -/
def listContainsSub (needle : List Char) : List Char → Bool
  | [] => needle.isEmpty
  | c :: cs => needle.isPrefixOf (c :: cs) || listContainsSub needle cs

/-- `needle in s` in Python. -/
def strContainsSub (needle s : String) : Bool := listContainsSub needle.toList s.toList

/-- `str.lower()` (ASCII). -/
def lowerS (s : String) : String := String.mk (s.toList.map Char.toLower)

/-- Split a character list at newline characters, keeping empty pieces. -/
def splitListOnNewline : List Char → List (List Char)
  | [] => [[]]
  | c :: cs =>
      if c = '\n' then [] :: splitListOnNewline cs
      else
        match splitListOnNewline cs with
        | [] => [[c]]
        | h :: t => (c :: h) :: t

/-- Python `line.split('\n')` (keeps empty pieces). -/
def splitOnNewlines (s : String) : List String := (splitListOnNewline s.toList).map String.mk

/-! ### Exact rational arithmetic

Python float arithmetic on the small decimal scores is idealized as exact
rational arithmetic.  The operations are spelled out through `mkRat` so
that they evaluate inside the kernel; the bridge lemmas `ratAdd_eq_add`,
`ratDivNat_eq_div` and `ratLt_iff_lt` (below) identify them with the
standard rational operations. -/

/-- Addition on `ℚ` via `mkRat`. -/
def ratAdd (a b : ℚ) : ℚ := mkRat (a.num * b.den + b.num * a.den) (a.den * b.den)

/-- Division of a rational by a natural number via `mkRat`. -/
def ratDivNat (a : ℚ) (n : Nat) : ℚ := mkRat a.num (a.den * n)

/-- Strict comparison on `ℚ` by cross multiplication. -/
def ratLt (a b : ℚ) : Bool := a.num * b.den < b.num * a.den

/-- `sum(xs)` for rationals. -/
def ratSum (l : List ℚ) : ℚ := l.foldl ratAdd 0

/-! ### The outbound-request path
(`LLMConfig.get_completion` in src/novel_writer/config/llm.py and
`BaseAgent._get_llm_response` in src/novel_writer/agents/base_agent.py)

The external text-generation service is an oracle: the `Except`-valued
outcome of one request.  The embedding threads the `LLMConfig` state
(which owns the optional `APIKeyManager`) and counts outbound requests. -/

structure LLMConfigS where
  api_key_manager : Option KMState
  single_api_key : Option String
  deriving Repr, DecidableEq

/-- `LLMConfig._get_current_key` (as invoked by `get_client`): pulls a key
from the manager when one is configured (mutating it), otherwise returns
the single key. -/
def cfgGetCurrentKey (cfg : LLMConfigS) : Except String (String × LLMConfigS) :=
  match cfg.api_key_manager with
  | some km =>
      match getCurrentKey km with
      | .ok (k, _, km') => .ok (k, { cfg with api_key_manager := some km' })
      | .error e => .error e
  | none => .ok (cfg.single_api_key.getD "", cfg)

/-- `LLMConfig.get_completion`: acquire a client (key acquisition may
raise, before any request is made), then issue exactly one request; any
error from the request is logged and re-raised unchanged.  The third
component counts outbound requests actually made. -/
def getCompletionS (oracle : Except String String) (cfg : LLMConfigS) :
    Except String String × LLMConfigS × Nat :=
  match cfgGetCurrentKey cfg with
  | .error e => (.error e, cfg, 0)
  | .ok (_, cfg') => (oracle, cfg', 1)

/-- Response clean-up in `BaseAgent._get_llm_response`: strip, remove a
code fence when the text both starts and ends with one, drop a leading
`markdown` marker. -/
def cleanResponse (response : String) : String :=
  let cleaned := stripS response
  let cleaned :=
    if strStartsWith "```" cleaned ∧ strEndsWith "```" cleaned then
      stripS (String.mk ((cleaned.toList.drop 3).take (cleaned.toList.length - 6)))
    else cleaned
  if strStartsWith "markdown" cleaned then stripS (String.mk (cleaned.toList.drop 8))
  else cleaned

/-- `BaseAgent._get_llm_response`: one call to `get_completion`; a
successful response is cleaned; any exception is wrapped as
`Error getting LLM response: <msg>` and re-raised. -/
def getLLMResponseS (oracle : Except String String) (cfg : LLMConfigS) :
    Except String String × LLMConfigS × Nat :=
  match getCompletionS oracle cfg with
  | (.ok resp, cfg', n) => (.ok (cleanResponse resp), cfg', n)
  | (.error e, cfg', n) => (.error ("Error getting LLM response: " ++ e), cfg', n)

/-- Claimed behaviour, written from the spec sentence for comparison with
the code: "an error whose message indicates rate-limiting/quota/capacity". -/
def isRateLimitMessage (msg : String) : Bool :=
  strContainsSub "rate" (lowerS msg) || strContainsSub "quota" (lowerS msg) ||
    strContainsSub "capacity" (lowerS msg)

/-- Claimed behaviour, written from the spec sentence for comparison with
the code: a bounded retry loop (`fuel` = retries left) in which a
rate-limit/quota/capacity error marks the current credential exhausted and
retries with a newly acquired credential, while any other error propagates
immediately.  `attemptIdx` indexes the oracle so each attempt can have a
distinct outcome. -/
def specRetryLoop (oracle : Nat → Except String String) :
    Nat → Nat → LLMConfigS → Except String String × LLMConfigS
  | fuel, attemptIdx, cfg =>
    match cfgGetCurrentKey cfg with
    | .error e => (.error e, cfg)
    | .ok (key, cfg') =>
        match oracle attemptIdx with
        | .ok r => (.ok (cleanResponse r), cfg')
        | .error e =>
            if isRateLimitMessage e then
              match fuel with
              | 0 => (.error e,
                  { cfg' with api_key_manager := cfg'.api_key_manager.map (markKeyExhausted key) })
              | fuel' + 1 => specRetryLoop oracle fuel' (attemptIdx + 1)
                  { cfg' with api_key_manager := cfg'.api_key_manager.map (markKeyExhausted key) }
            else (.error e, cfg')

/-- Claimed behaviour of a stage function request: 3 attempts total. -/
def specGetLLMResponse (oracle : Nat → Except String String) (cfg : LLMConfigS) :
    Except String String × LLMConfigS :=
  specRetryLoop oracle 2 0 cfg

/-- Concrete oracle: first request hits a rate limit, any retry succeeds. -/
def rateLimitedOracle : Nat → Except String String :=
  fun n => if n = 0 then .error "rate limit exceeded" else .ok "A story"

/-- Concrete configuration: a key manager with two free keys. -/
def cfgDemo : LLMConfigS := { api_key_manager := some kmDemoB, single_api_key := none }

/-! ### `CriticAgent._parse_evaluation` (src/novel_writer/agents/critic_agent.py)

The evaluation parser walks the response line by line, tracking the
current section, and extracts score lines with the regular expression
`-\s*([^:]+):\s*(\d+(?:\.\d+)?)/10` (via `re.match`, i.e. anchored at the
start of the stripped line).  Scores are Python floats, modelled as
rationals. -/

/-- Digit run to a number. -/
def digitsToNat (l : List Char) : Nat := l.foldl (fun n c => n * 10 + (c.toNat - 48)) 0

/-- `float` value of `<digits>` or `<digits>.<digits>`. -/
def decimalToRat (intPart fracPart : List Char) : ℚ :=
  mkRat (digitsToNat intPart * 10 ^ fracPart.length + digitsToNat fracPart)
    (10 ^ fracPart.length)

/-- `re.match(r'-\s*([^:]+):\s*(\d+(?:\.\d+)?)/10', line)`: anchored match
returning the raw label (group 1) and the numeric score (group 2).  The
`/10` suffix is part of the pattern and therefore mandatory; `re.match`
ignores trailing text after it. -/
def matchScoreLine (l : List Char) : Option (String × ℚ) :=
  match l with
  | '-' :: rest =>
      let rest1 := rest.dropWhile isPySpace
      let labelPair := rest1.span (fun c => c ≠ ':')
      if labelPair.1 = [] then none
      else
        match labelPair.2 with
        | ':' :: rest3 =>
            let rest4 := rest3.dropWhile isPySpace
            let d1Pair := rest4.span Char.isDigit
            if d1Pair.1 = [] then none
            else
              let numRest :=
                match d1Pair.2 with
                | '.' :: r =>
                    let d2Pair := r.span Char.isDigit
                    if d2Pair.1 = [] then (decimalToRat d1Pair.1 [], d1Pair.2)
                    else (decimalToRat d1Pair.1 d2Pair.1, d2Pair.2)
                | _ => (decimalToRat d1Pair.1 [], d1Pair.2)
              if ['/', '1', '0'].isPrefixOf numRest.2 then some (String.mk labelPair.1, numRest.1)
              else none
        | _ => none
  | _ => none

/-- `category = match.group(1).strip().lower().replace(' ', '_')`. -/
def normalizeLabel (label : String) : String :=
  String.mk (((stripL label.toList).map Char.toLower).map (fun c => if c = ' ' then '_' else c))

/-- Section tracker of `_parse_evaluation` (`current_section`). -/
inductive EvalSection
  | scores
  | strengths
  | improvements
  | other
  deriving DecidableEq, Repr

/-- The structured evaluation record.  `overall_score` is optional because
it is absent from the dict until either an overall-labelled score line is
seen or the post-processing mean is synthesized. -/
structure Evaluation where
  scores : List (String × ℚ)
  key_strengths : List String
  areas_for_improvement : List String
  overall_score : Option ℚ
  deriving DecidableEq, Repr

def emptyEvaluation : Evaluation :=
  { scores := [], key_strengths := [], areas_for_improvement := [], overall_score := none }

/-- Content handling of one (stripped, non-empty, non-header) line,
depending on the current section. -/
def parseEvalContent (cs : Option EvalSection) (ev : Evaluation) (line : String) : Evaluation :=
  match cs with
  | some .scores =>
      if strStartsWith "-" line then
        match matchScoreLine line.toList with
        | some (label, v) =>
            { ev with
              scores := alistInsert (normalizeLabel label) v ev.scores,
              overall_score :=
                if strContainsSub "overall" (normalizeLabel label) then some v
                else ev.overall_score }
        | none => ev
      else ev
  | some .strengths =>
      if strStartsWith "-" line then
        let s := stripS (String.mk line.toList.tail)
        if s ≠ "" then { ev with key_strengths := ev.key_strengths ++ [s] } else ev
      else ev
  | some .improvements =>
      if strStartsWith "-" line then
        let s := stripS (String.mk line.toList.tail)
        if s ≠ "" then { ev with areas_for_improvement := ev.areas_for_improvement ++ [s] }
        else ev
      else ev
  | _ => ev

/-- One iteration of the `for line in response.split('\n')` loop. -/
def parseEvalLine (cs : Option EvalSection) (ev : Evaluation) (rawLine : String) :
    Option EvalSection × Evaluation :=
  let line := stripS rawLine
  if line = "" then (cs, ev)
  else if strStartsWith "# Evaluation" line then (cs, ev)
  else if strStartsWith "## Scores" line then (some .scores, ev)
  else if strStartsWith "## Key Strengths" line then (some .strengths, ev)
  else if strStartsWith "## Areas for Improvement" line then (some .improvements, ev)
  else if strStartsWith "##" line then (some .other, ev)
  else (cs, parseEvalContent cs ev line)

/-- The line loop of `_parse_evaluation`, before post-processing. -/
def parseEvaluationLoop (response : String) : Option EvalSection × Evaluation :=
  (splitOnNewlines response).foldl (fun acc l => parseEvalLine acc.1 acc.2 l)
    (none, emptyEvaluation)

/-- Sum of the values of a scores mapping (`sum(scores.values())`). -/
def sumScores (l : List (String × ℚ)) : ℚ := ratSum (l.map Prod.snd)

/-- `sum(scores.values()) / len(scores)`. -/
def meanScores (l : List (String × ℚ)) : ℚ := ratDivNat (sumScores l) l.length

/-- Post-processing: synthesize `overall_score` as the mean of the stated
scores when no explicit overall line was seen and at least one score is
present. -/
def finalizeEvaluation (ev : Evaluation) : Evaluation :=
  match ev.overall_score with
  | some _ => ev
  | none =>
      if ev.scores ≠ [] then
        { ev with overall_score := some (meanScores ev.scores) }
      else ev

/-- `CriticAgent._parse_evaluation` (the `pitch_num` argument only feeds
logging and is omitted). -/
def parseEvaluation (response : String) : Evaluation :=
  finalizeEvaluation (parseEvaluationLoop response).2

/-- The invariant backing C10: an explicit overall score is always
accompanied by an overall-labelled entry in the scores mapping carrying
the same value. -/
def overallWitnessed (ev : Evaluation) : Prop :=
  ∀ v : ℚ, ev.overall_score = some v →
    ∃ k, strContainsSub "overall" k = true ∧ alistLookup k ev.scores = some v

/-- Concrete critic response: per-criterion scores 10 and 4 plus an
explicit overall line *without* the `/10` suffix. -/
def evalRespNoSuffix : String := "## Scores\n- a: 10/10\n- b: 4/10\n- Overall: 5"

/-- Concrete critic response: per-criterion scores 10 and 4 plus an
explicit overall line *with* the `/10` suffix. -/
def evalRespWithSuffix : String := "## Scores\n- a: 10/10\n- b: 4/10\n- Overall: 5/10"

/-! ### `FacilitatorAgent` helpers (src/novel_writer/agents/facilitator_agent.py) -/

/-- A pitch record is a Python dict of string fields. -/
abbrev PitchD := List (String × String)

/-- Average-score computation shared by `_improve_pitches` (and, with the
same precedence, `_format_pitches_and_evaluations` and
`_select_fallback_winner` in voter_agent.py): the explicit `overall_score`
wins; otherwise the mean of the stated scores; otherwise the initial 0. -/
def avgScore (ev : Evaluation) : ℚ :=
  match ev.overall_score with
  | some v => v
  | none => if ev.scores ≠ [] then meanScores ev.scores else 0

/-- `threshold_score = 7.5` in `_improve_pitches`. -/
def thresholdScore : ℚ := mkRat 15 2

/-- The `for i, (pitch, evaluation) in enumerate(zip(pitches, evaluations))`
loop of `_improve_pitches`: a pitch whose average score is strictly below
the threshold is replaced by the improver collaborator's output (whose
exceptions propagate), any other pitch is passed through unchanged. -/
def improvePitchesLoop (improver : PitchD → Evaluation → Except String PitchD) :
    List (PitchD × Evaluation) → List PitchD → Except String (List PitchD)
  | [], acc => .ok acc
  | (p, e) :: rest, acc =>
      if ratLt (avgScore e) thresholdScore then
        match improver p e with
        | .ok q => improvePitchesLoop improver rest (acc ++ [q])
        | .error err => .error err
      else improvePitchesLoop improver rest (acc ++ [p])

/-- `FacilitatorAgent._improve_pitches`. -/
def improvePitches (improver : PitchD → Evaluation → Except String PitchD)
    (pitches : List PitchD) (evaluations : List Evaluation) : Except String (List PitchD) :=
  improvePitchesLoop improver (pitches.zip evaluations) []

/-- Winner resolution in `FacilitatorAgent._run_pitch_selection`: exact
title match over the candidate list; Python's falsy test (`not
winner_pitch`) treats both "no match" (`None`) and an empty matching dict
as misses, falling back to the first candidate when the list is
non-empty.  The empty dict models Python `None`/`{}`. -/
def selectWinnerPitch (winnerTitle : String) (pitches : List PitchD) : PitchD :=
  let found := (pitches.find? (fun p => alistGetD "title" "" p = winnerTitle)).getD []
  if found.isEmpty ∧ pitches ≠ [] then pitches.headD []
  else found

/-- Score of one evaluation inside `VoterAgent._select_fallback_winner`
(`score = 0`, overridden by `overall_score`, else by the mean). -/
def voterScore (ev : Evaluation) : ℚ := avgScore ev

/-- The scan of `_select_fallback_winner` from an arbitrary accumulator
`(highest_score, highest_index, i)`: the maximum is updated whenever
`score > highest_score` (strictly — ties keep the earlier pitch). -/
def fallbackScanFrom (evaluations : List Evaluation) (hs : ℚ) (hi i : Nat) : ℚ × Nat × Nat :=
  evaluations.foldl
    (fun acc ev =>
      if ratLt acc.1 (voterScore ev) then (voterScore ev, acc.2.2, acc.2.2 + 1)
      else (acc.1, acc.2.1, acc.2.2 + 1))
    (hs, hi, i)

/-- The scan of `_select_fallback_winner`, starting from
`highest_score = -1`, `highest_index = 0`. -/
def fallbackScan (evaluations : List Evaluation) : ℚ × Nat × Nat :=
  fallbackScanFrom evaluations (mkRat (-1) 1) 0 0

/-- `VoterAgent._select_fallback_winner`: the title of the pitch at the
highest-scoring index (`none` models the `IndexError` raised when the
pitch list is shorter than the evaluation list). -/
def selectFallbackWinner (pitches : List PitchD) (evaluations : List Evaluation) :
    Option String :=
  let hi := (fallbackScan evaluations).2.1
  (pitches.get? hi).map (fun p => alistGetD "title" ("Pitch " ++ toString (hi + 1)) p)

/-! ### Concrete records for the scenario theorems -/

def demoPitchA : PitchD := [("title", "A")]

def demoPitchB : PitchD := [("title", "B")]

def demoImprovedPitch : PitchD := [("title", "improved")]

/-- An improver collaborator that always succeeds with a fixed pitch. -/
def demoImprover : PitchD → Evaluation → Except String PitchD :=
  fun _ _ => .ok demoImprovedPitch

/-- Evaluation with explicit overall score exactly 7.5. -/
def demoEval75 : Evaluation :=
  { scores := [], key_strengths := [], areas_for_improvement := [],
    overall_score := some (mkRat 15 2) }

/-- Evaluation with explicit overall score 7.49. -/
def demoEval749 : Evaluation :=
  { scores := [], key_strengths := [], areas_for_improvement := [],
    overall_score := some (mkRat 749 100) }

/-- Evaluation with explicit overall score 3. -/
def demoEval3 : Evaluation :=
  { scores := [], key_strengths := [], areas_for_improvement := [],
    overall_score := some (mkRat 3 1) }

/-- Evaluation with explicit overall score 9. -/
def demoEval9 : Evaluation :=
  { scores := [], key_strengths := [], areas_for_improvement := [],
    overall_score := some (mkRat 9 1) }

/-! ### `PitchGeneratorAgent._parse_pitches_response`
(src/novel_writer/agents/pitch_generator_agent.py)

The parser splits the response on `re.split(r'#\s*Pitch\s+\d+|---', ...)`,
strips and drops empty blocks, extracts the five fields per block with
`re.search` patterns of the shape `<marker>\s*(.*?)(?:<term>|...)` (lazy
group, alternation of terminators, optionally `re.DOTALL`, optionally `$`),
fills unmatched fields with defaults, and drops records with too many
`"[Missing]"` fields. -/

/-- One alternation branch `#\s*Pitch\s+\d+` anchored at the head of `l`;
returns the remaining text after the match. -/
def matchPitchHeading (l : List Char) : Option (List Char) :=
  match l with
  | '#' :: r =>
      let r1 := r.dropWhile isPySpace
      if ("Pitch".toList).isPrefixOf r1 then
        let r2 := r1.drop 5
        match r2 with
        | c :: cs =>
            if isPySpace c then
              let r3 := (c :: cs).dropWhile isPySpace
              let ds := r3.takeWhile Char.isDigit
              if ds ≠ [] then some (r3.drop ds.length) else none
            else none
        | [] => none
      else none
  | _ => none

/-- The split pattern `#\s*Pitch\s+\d+|---` anchored at the head of `l`
(first alternative first, as in `re`). -/
def matchPitchSep (l : List Char) : Option (List Char) :=
  match matchPitchHeading l with
  | some rest => some rest
  | none => if ['-', '-', '-'].isPrefixOf l then some (l.drop 3) else none

/-- `re.split` scan: cut the text at every non-overlapping leftmost match
of the separator pattern.  `fuel` bounds the number of steps (each step
consumes at least one character, so `fuel = length` suffices). -/
def splitPitchSepsAux : Nat → List Char → List Char → List (List Char)
  | _, cur, [] => [cur.reverse]
  | 0, cur, l => [cur.reverse ++ l]
  | fuel + 1, cur, c :: cs =>
      match matchPitchSep (c :: cs) with
      | some rest => cur.reverse :: splitPitchSepsAux fuel [] rest
      | none => splitPitchSepsAux fuel (c :: cur) cs

/-- `re.split(r'#\s*Pitch\s+\d+|---', response)`. -/
def rawPitchBlocks (response : String) : List (List Char) :=
  splitPitchSepsAux response.toList.length [] response.toList

/-- `[block.strip() for block in pitch_blocks if block.strip()]`. -/
def pitchBlocks (response : String) : List (List Char) :=
  ((rawPitchBlocks response).map stripL).filter (· ≠ [])

/-- The lazy group `(.*?)` of an `re.search` pattern: consume as few
characters as possible (never a newline unless `re.DOTALL`) until one of
the terminator alternatives — or, when `allowEnd` models a trailing `$`,
the end of the text (or a final lone newline) — matches. -/
def tryLazy (dotall : Bool) (terms : List (List Char)) (allowEnd : Bool) :
    List Char → Option (List Char)
  | [] => if terms.any (fun t => t.isPrefixOf ([] : List Char)) ∨ allowEnd then some [] else none
  | c :: cs =>
      if terms.any (fun t => t.isPrefixOf (c :: cs)) ∨ (allowEnd ∧ (c :: cs) = ['\n']) then
        some []
      else if ¬dotall ∧ c = '\n' then none
      else (tryLazy dotall terms allowEnd cs).map (c :: ·)

/-- Backtracking over the greedy `\s*` that precedes the lazy group: try
the maximal whitespace run first, then shorter runs. -/
def tryWsCount (dotall : Bool) (terms : List (List Char)) (allowEnd : Bool)
    (r : List Char) : Nat → Option (List Char)
  | 0 => tryLazy dotall terms allowEnd r
  | j + 1 =>
      match tryLazy dotall terms allowEnd (r.drop (j + 1)) with
      | some g => some g
      | none => tryWsCount dotall terms allowEnd r j

/-- Completion of `<marker>\s*(.*?)(?:...)` after the marker matched. -/
def tryAfterMarker (dotall : Bool) (terms : List (List Char)) (allowEnd : Bool)
    (r : List Char) : Option (List Char) :=
  tryWsCount dotall terms allowEnd r (r.takeWhile isPySpace).length

/-- `re.search(marker + r'\s*(.*?)(?:' + alternatives + ')', text)`: scan
every start position from the left; at a marker occurrence whose
completion fails, scanning continues at the next position. -/
def searchField (marker : List Char) (dotall : Bool) (terms : List (List Char))
    (allowEnd : Bool) : List Char → Option (List Char)
  | [] => none
  | c :: cs =>
      if marker.isPrefixOf (c :: cs) then
        match tryAfterMarker dotall terms allowEnd ((c :: cs).drop marker.length) with
        | some g => some g
        | none => searchField marker dotall terms allowEnd cs
      else searchField marker dotall terms allowEnd cs

/-- `re.search(r'\*\*Title:\*\*\s*(.*?)(?:\*\*|\n)', block)`. -/
def searchTitle (block : List Char) : Option (List Char) :=
  searchField ("**Title:**".toList) false ["**".toList, ['\n']] false block

/-- `re.search(r'\*\*Hook:\*\*\s*(.*?)(?:\*\*|\n\n)', block)`. -/
def searchHook (block : List Char) : Option (List Char) :=
  searchField ("**Hook:**".toList) false ["**".toList, "\n\n".toList] false block

/-- `re.search(r'\*\*Premise:\*\*\s*(.*?)(?:\*\*Main|\*\*Conflict|\n\n\*\*)', block, re.DOTALL)`. -/
def searchPremise (block : List Char) : Option (List Char) :=
  searchField ("**Premise:**".toList) true
    ["**Main".toList, "**Conflict".toList, "\n\n**".toList] false block

/-- `re.search(r'\*\*Main Conflict:\*\*\s*(.*?)(?:\*\*Unique|\*\*Twist|\n\n\*\*)', block, re.DOTALL)`. -/
def searchConflict (block : List Char) : Option (List Char) :=
  searchField ("**Main Conflict:**".toList) true
    ["**Unique".toList, "**Twist".toList, "\n\n**".toList] false block

/-- `re.search(r'\*\*Unique Twist:\*\*\s*(.*?)(?:\n\n|$)', block, re.DOTALL)`. -/
def searchTwist (block : List Char) : Option (List Char) :=
  searchField ("**Unique Twist:**".toList) true ["\n\n".toList] true block

/-- Default title for pitch block `i` (0-based): `f"Untitled Pitch {i+1}"`. -/
def untitledDefault (i : Nat) : String := "Untitled Pitch " ++ toString (i + 1)

/-- The record built for one pitch block: every extracted group is
stripped; an unmatched title falls back to the numbered default, every
other unmatched field to the `"[Missing]"` sentinel. -/
def mkPitch (i : Nat) (block : List Char) : PitchD :=
  [("title",
      match searchTitle block with
      | some g => String.mk (stripL g)
      | none => untitledDefault i),
   ("hook",
      match searchHook block with
      | some g => String.mk (stripL g)
      | none => "[Missing]"),
   ("premise",
      match searchPremise block with
      | some g => String.mk (stripL g)
      | none => "[Missing]"),
   ("main_conflict",
      match searchConflict block with
      | some g => String.mk (stripL g)
      | none => "[Missing]"),
   ("unique_twist",
      match searchTwist block with
      | some g => String.mk (stripL g)
      | none => "[Missing]")]

/-- `missing_sections`: the declared fields whose value is the sentinel. -/
def missingSectionsCount (p : PitchD) : Nat :=
  (["title", "hook", "premise", "main_conflict", "unique_twist"].filter
    (fun s => alistLookup s p = some "[Missing]")).length

/-- `PitchGeneratorAgent._parse_pitches_response`: build a record per
block and keep it unless at least 4 of the 5 sections are missing. -/
def parsePitchesResponse (response : String) : List PitchD :=
  (pitchBlocks response).enum.foldl
    (fun acc ib =>
      let p := mkPitch ib.1 ib.2
      if 4 ≤ missingSectionsCount p then acc else acc ++ [p])
    []

/-- Concrete response without any `**Title:**` marker. -/
def pitchRespNoTitle : String :=
  "**Hook:** H\n\n**Premise:** P\n\n**Main Conflict:** C\n\n**Unique Twist:** T\n\n"

/-- Concrete response: block 1 keeps 3 missing sections, block 2 has 4. -/
def pitchRespGate : String := "# Pitch 1\n**Title:** T\n**Hook:** H\n\nx\n# Pitch 2\njunk"

/-! ### `FacilitatorAgent.generate_idea` — the workflow state machine
(src/novel_writer/agents/facilitator_agent.py)

The seven collaborators are the boundary: each is an `Except`-valued
function of the data the facilitator passes it.  `generate_idea` threads
the mutable `State` (which survives an exception, since the facilitator
object outlives the raised error) and returns the raised exception or the
final artifact alongside the final state. -/

structure GenreData where
  genre : String
  subgenre : String
  tone : String
  themes : List String
  deriving DecidableEq, Repr

/-- The hard-coded fallback dict of `_determine_genre_tone_themes`'s
`except` branch. -/
def fallbackGenreData : GenreData :=
  { genre := "Science Fiction", subgenre := "Cyberpunk",
    tone := "Hopeful yet cautious", themes := ["Technology", "Humanity", "Progress"] }

structure SelectionData where
  winner : String
  selection_criteria : List String
  development_recommendations : List String
  potential_challenges : List String
  deriving DecidableEq, Repr

/-- Trope analysis payload (opaque to the controller). -/
abbrev TropeData := List (String × String)

/-- The collaborator agents invoked by the facilitator. -/
structure Env where
  genreVibe : Option String → Option String → Option (List String) → Except String GenreData
  generatePitches : String → String → String → List String → Except String (List PitchD)
  evaluatePitches : List PitchD → String → String → String → List String →
    Except String (List Evaluation)
  improvePitch : PitchD → Evaluation → String → String → String → List String →
    Except String PitchD
  selectBestPitch : List PitchD → List Evaluation → String → String → String → List String →
    Except String SelectionData
  analyzeTropes : PitchD → String → String → String → List String → Except String TropeData
  compileIdea : PitchD → TropeData → Option String → Except String (String × String)

/-- `GenerationStage` enum. -/
inductive GenerationStage
  | initial
  | genre_selection
  | pitch_generation
  | critic_evaluation
  | pitch_improvement
  | pitch_selection
  | trope_analysis
  | documentation
  | completed
  | error
  deriving DecidableEq, Repr

/-- The `State` record of the facilitator (the unused `data` dict is
omitted; Python's `selected_pitch = {}` / `None` are both the empty
record). -/
structure State where
  stage : GenerationStage
  genre : String
  subgenre : String
  tone : String
  themes : List String
  pitches : List PitchD
  evaluations : List Evaluation
  improved_pitches : List PitchD
  selected_pitch : PitchD
  trope_analysis : TropeData
  output_path : Option String
  deriving DecidableEq, Repr

def initState : State :=
  { stage := .initial, genre := "", subgenre := "", tone := "", themes := [],
    pitches := [], evaluations := [], improved_pitches := [], selected_pitch := [],
    trope_analysis := [], output_path := none }

/-- `_determine_genre_tone_themes`: the genre collaborator's result when it
succeeds, the hard-coded fallback when it raises — the exception is
swallowed here and never reaches `generate_idea`. -/
def determineGenreToneThemes (env : Env) (g t : Option String)
    (th : Option (List String)) : GenreData :=
  match env.genreVibe g t th with
  | .ok d => d
  | .error _ => fallbackGenreData

/-- The `idea_data` dict assembled on success. -/
structure IdeaData where
  genre : String
  subgenre : String
  tone : String
  themes : List String
  selected_pitch : PitchD
  trope_analysis : TropeData
  output_path : String
  deriving DecidableEq, Repr

/-- `FacilitatorAgent.generate_idea`: the stage sequence.  Each stage sets
`state.stage` before invoking its collaborator; an exception from any
stage after genre selection is caught once at the top level, the stage is
set to ERROR, and the exception is re-raised (returned in the first
component) while the mutated state is kept (second component). -/
def generateIdea (env : Env) (g t : Option String) (th : Option (List String))
    (outputDir : Option String) : Except String (String × IdeaData) × State :=
  -- Step 1: genre selection (collaborator exceptions swallowed inside)
  let st := { initState with stage := .genre_selection }
  let gd := determineGenreToneThemes env g t th
  let st := { st with genre := gd.genre, subgenre := gd.subgenre, tone := gd.tone,
                      themes := gd.themes }
  -- Step 2: pitch generation
  let st := { st with stage := .pitch_generation }
  match env.generatePitches st.genre st.subgenre st.tone st.themes with
  | .error e => (.error e, { st with stage := .error })
  | .ok pitches =>
    let st := { st with pitches := pitches }
    -- Step 3: critic evaluation
    let st := { st with stage := .critic_evaluation }
    match env.evaluatePitches st.pitches st.genre st.subgenre st.tone st.themes with
    | .error e => (.error e, { st with stage := .error })
    | .ok evaluations =>
      let st := { st with evaluations := evaluations }
      -- Step 4: pitch improvement
      let st := { st with stage := .pitch_improvement }
      match improvePitches
          (fun p e => env.improvePitch p e st.genre st.subgenre st.tone st.themes)
          st.pitches st.evaluations with
      | .error e => (.error e, { st with stage := .error })
      | .ok improved =>
        let st := { st with improved_pitches := improved }
        -- Step 5: pitch selection (winner resolution included)
        let st := { st with stage := .pitch_selection }
        match env.selectBestPitch st.improved_pitches st.evaluations st.genre st.subgenre
            st.tone st.themes with
        | .error e => (.error e, { st with stage := .error })
        | .ok selection =>
          let st := { st with
            selected_pitch := selectWinnerPitch selection.winner st.improved_pitches }
          -- Step 6: trope analysis
          let st := { st with stage := .trope_analysis }
          match env.analyzeTropes st.selected_pitch st.genre st.subgenre st.tone st.themes with
          | .error e => (.error e, { st with stage := .error })
          | .ok tropes =>
            let st := { st with trope_analysis := tropes }
            -- Step 7: documentation
            let st := { st with stage := .documentation, output_path := outputDir }
            match env.compileIdea st.selected_pitch st.trope_analysis outputDir with
            | .error e => (.error e, { st with stage := .error })
            | .ok filePair =>
              let st := { st with stage := .completed }
              (.ok (filePair.1,
                { genre := st.genre, subgenre := st.subgenre, tone := st.tone,
                  themes := st.themes, selected_pitch := st.selected_pitch,
                  trope_analysis := st.trope_analysis, output_path := filePair.1 }), st)

/-- Collaborator family in which the genre agent raises and every later
stage succeeds. -/
def exEnvSwallow : Env :=
  { genreVibe := fun _ _ _ => .error "boom",
    generatePitches := fun _ _ _ _ => .ok [demoPitchA],
    evaluatePitches := fun _ _ _ _ _ => .ok [demoEval9],
    improvePitch := fun p _ _ _ _ _ => .ok p,
    selectBestPitch := fun _ _ _ _ _ _ =>
      .ok { winner := "A", selection_criteria := [],
            development_recommendations := [], potential_challenges := [] },
    analyzeTropes := fun _ _ _ _ _ => .ok [],
    compileIdea := fun _ _ _ => .ok ("out.md", "doc") }

/-- Collaborator family in which the pitch-generation stage raises. -/
def exEnvPitchFail : Env :=
  { exEnvSwallow with
    genreVibe := fun _ _ _ => .ok fallbackGenreData,
    generatePitches := fun _ _ _ _ => .error "No valid pitches were generated" }

/-! ## Theorems -/

/-! ### Bridge lemmas for the kernel-computable rational operations -/

theorem ratAdd_eq_add (a b : ℚ) : ratAdd a b = a + b := by
  have ha : ((a.den : ℚ)) ≠ 0 := by
    exact_mod_cast a.den_nz
  have hb : ((b.den : ℚ)) ≠ 0 := by
    exact_mod_cast b.den_nz
  rw [ratAdd, Rat.mkRat_eq_divInt, Rat.divInt_eq_div]
  push_cast
  conv_rhs => rw [← Rat.num_div_den a, ← Rat.num_div_den b]
  rw [div_add_div _ _ ha hb]
  ring_nf

theorem ratDivNat_eq_div (a : ℚ) (n : Nat) : ratDivNat a n = a / n := by
  rw [ratDivNat, Rat.mkRat_eq_divInt, Rat.divInt_eq_div]
  push_cast
  rw [← div_div, Rat.num_div_den]

theorem ratLt_iff_lt (a b : ℚ) : ratLt a b = true ↔ a < b := by
  have ha : (0 : ℚ) < a.den := by
    exact_mod_cast a.den_pos
  have hb : (0 : ℚ) < b.den := by
    exact_mod_cast b.den_pos
  have key : a < b ↔ (a.num : ℚ) * b.den < (b.num : ℚ) * a.den := by
    conv_lhs => rw [← Rat.num_div_den a, ← Rat.num_div_den b]
    rw [div_lt_div_iff₀ ha hb]
  rw [ratLt, decide_eq_true_iff, key]
  exact_mod_cast Iff.rfl

theorem ratSum_foldl (l : List ℚ) (init : ℚ) : l.foldl ratAdd init = init + l.sum := by
  induction l generalizing init with
  | nil => simp
  | cons a t ih =>
      simp only [List.foldl_cons, ih, ratAdd_eq_add, List.sum_cons]
      ring

theorem ratSum_eq_sum (l : List ℚ) : ratSum l = l.sum := by
  rw [ratSum, ratSum_foldl]
  ring

theorem meanScores_eq (l : List (String × ℚ)) :
    meanScores l = (l.map Prod.snd).sum / l.length := by
  rw [meanScores, ratDivNat_eq_div, sumScores, ratSum_eq_sum]

/-! ### Association-list lemmas -/

theorem alistLookup_insert_self {β : Type} (k : String) (v : β) (l : List (String × β)) :
    alistLookup k (alistInsert k v l) = some v := by
  induction l with
  | nil => simp [alistInsert, alistLookup]
  | cons p rest ih =>
      obtain ⟨k', v'⟩ := p
      by_cases h : k' = k <;> simp [alistInsert, alistLookup, h, ih]

theorem alistLookup_insert_ne {β : Type} (k k' : String) (v : β) (l : List (String × β))
    (h : k' ≠ k) : alistLookup k (alistInsert k' v l) = alistLookup k l := by
  induction l with
  | nil => simp [alistInsert, alistLookup, h]
  | cons p rest ih =>
      obtain ⟨k₀, v₀⟩ := p
      by_cases h0 : k₀ = k'
      · subst h0; simp [alistInsert, alistLookup, h]
      · simp [alistInsert, alistLookup, h0, ih]

theorem alistLookup_mem {β : Type} {k : String} {v : β} {l : List (String × β)}
    (h : alistLookup k l = some v) : (k, v) ∈ l := by
  induction l with
  | nil => simp [alistLookup] at h
  | cons p rest ih =>
      obtain ⟨k₀, v₀⟩ := p
      by_cases h0 : k₀ = k
      · subst h0
        simp [alistLookup] at h
        simp [h]
      · simp [alistLookup, h0] at h
        exact List.mem_cons_of_mem _ (ih h)

/-! ### Credential manager theorems (C6, C7) -/

theorem nonempty_all_mem_nil_false (l : List String) (h : l ≠ []) :
    l.all (· ∈ ([] : List String)) = false := by
  cases l with
  | nil => exact absurd rfl h
  | cons a t => simp

/-- **C6** (confirmed).  With 2 primary (free) credentials and 1 secondary
(paid) credential, after `reportExhausted` on the two distinct primary
credentials the next `acquire` returns the secondary credential with
`tier == secondary`; after a further `reportExhausted` on the only secondary
credential, `acquire` returns that same secondary credential again, the
exhausted flag of which was cleared by the all-exhausted pool reset. -/
theorem credential_failover_sequence :
    getCurrentKey kmDemo1 = .ok ("p1", false, kmDemo1) ∧
    "p1" ∈ (markKeyExhausted "p1" kmDemo1).exhausted_keys ∧
    getCurrentKey (markKeyExhausted "p1" kmDemo1) =
      .ok ("p1", false, { markKeyExhausted "p1" kmDemo1 with exhausted_keys := [] }) := by
  decide

/-- **C7 counterexample**.  After `add f1; add f2; reportExhausted f2`, the
cursor points at `f2`, so `acquire` returns the exhausted credential `f2`
even though `f1` is not exhausted; moreover two consecutive `acquire` calls
return the *same* credential (the cursor is not advanced by `acquire`),
refuting the claim that `acquire` skips exhausted credentials and advances
the round-robin cursor. -/
theorem acquire_returns_exhausted_key_counterexample :
    "f2" ∈ (markKeyExhausted "f2" kmDemoB).exhausted_keys ∧
    "f1" ∉ (markKeyExhausted "f2" kmDemoB).exhausted_keys ∧
    getCurrentKey (markKeyExhausted "f2" kmDemoB) =
      .ok ("f2", true, markKeyExhausted "f2" kmDemoB) ∧
    getCurrentKey kmDemoB = .ok ("f1", true, kmDemoB) := by
  decide

/-- **C7** (corrected).  `acquire` returns the credential sitting at the
current round-robin cursor of the active pool, regardless of its exhausted
flag, except that when *every* credential of the active pool is exhausted
the whole exhausted set is cleared first.  `acquire` never advances the
cursor: an immediately repeated `acquire` returns the same credential and
the same state (the cursor advances only through `reportExhausted`). -/
theorem acquire_returns_cursor_key_and_does_not_advance :
    (∀ st : KMState, st.using_free_keys = true → st.free_keys ≠ [] →
      ∃ st' : KMState,
        getCurrentKey st =
          .ok (st.free_keys.getD (st.current_key_index % st.free_keys.length) "", true, st') ∧
        getCurrentKey st' =
          .ok (st.free_keys.getD (st.current_key_index % st.free_keys.length) "", true, st') ∧
        st'.current_key_index = st.current_key_index ∧
        (st.free_keys.all (· ∈ st.exhausted_keys) = true → st'.exhausted_keys = []) ∧
        (st.free_keys.all (· ∈ st.exhausted_keys) = false → st' = st)) ∧
    (∀ st : KMState, (st.using_free_keys = false ∨ st.free_keys = []) → st.paid_keys ≠ [] →
      ∃ st' : KMState,
        getCurrentKey st =
          .ok (st.paid_keys.getD
            ((if st.using_free_keys then 0 else st.current_key_index) % st.paid_keys.length) "",
            false, st') ∧
        getCurrentKey st' =
          .ok (st.paid_keys.getD
            ((if st.using_free_keys then 0 else st.current_key_index) % st.paid_keys.length) "",
            false, st') ∧
        st'.using_free_keys = false) := by
  constructor
  · intro st h1 h2
    by_cases hall : st.free_keys.all (· ∈ st.exhausted_keys) = true
    · refine ⟨{ st with exhausted_keys := [] }, ?_, ?_, rfl, fun _ => rfl, fun hf => ?_⟩
      · simp [getCurrentKey, h1, h2, hall]
      · simp [getCurrentKey, h1, h2, nonempty_all_mem_nil_false _ h2]
      · rw [hall] at hf; cases hf
    · refine ⟨st, ?_, ?_, rfl, fun ht => ?_, fun _ => rfl⟩
      · simp [getCurrentKey, h1, h2, hall]
      · simp [getCurrentKey, h1, h2, hall]
      · exact absurd ht hall
  · intro st h1 h2
    have hfree : ¬ (st.using_free_keys = true ∧ st.free_keys ≠ []) := by
      rcases h1 with h | h
      · intro hc; rw [h] at hc; exact Bool.false_ne_true hc.1
      · intro hc; exact hc.2 h
    by_cases husing : st.using_free_keys = true
    · have hfe : st.free_keys = [] := by
        rcases h1 with h | h
        · rw [husing] at h; cases h
        · exact h
      by_cases hall : st.paid_keys.all (· ∈ st.exhausted_keys) = true
      · refine ⟨{ st with using_free_keys := false, current_key_index := 0, exhausted_keys := [] }, ?_, ?_, rfl⟩
        · simp [getCurrentKey, hfe, h2, hall, husing]
        · simp [getCurrentKey, h2, husing, nonempty_all_mem_nil_false _ h2]
      · refine ⟨{ st with using_free_keys := false, current_key_index := 0 }, ?_, ?_, rfl⟩
        · simp [getCurrentKey, hfe, h2, hall, husing]
        · simp [getCurrentKey, h2, husing, hall]
    · have husing' : st.using_free_keys = false := by
        cases hb : st.using_free_keys
        · rfl
        · exact absurd hb husing
      by_cases hall : st.paid_keys.all (· ∈ st.exhausted_keys) = true
      · refine ⟨{ st with exhausted_keys := [] }, ?_, ?_, husing'⟩
        · simp [getCurrentKey, hfree, h2, hall, husing']
        · simp [getCurrentKey, h2, husing', nonempty_all_mem_nil_false _ h2]
      · refine ⟨st, ?_, ?_, husing'⟩
        · simp [getCurrentKey, hfree, h2, hall, husing']
        · simp [getCurrentKey, h2, husing', hall]

/-- Witness for `acquire_returns_cursor_key_and_does_not_advance` at the
concrete two-free-key manager. -/
theorem acquire_returns_cursor_key_witness :
    ∃ st' : KMState,
      getCurrentKey kmDemoB =
        .ok (kmDemoB.free_keys.getD (kmDemoB.current_key_index % kmDemoB.free_keys.length) "",
          true, st') ∧
      getCurrentKey st' =
        .ok (kmDemoB.free_keys.getD (kmDemoB.current_key_index % kmDemoB.free_keys.length) "",
          true, st') ∧
      st'.current_key_index = kmDemoB.current_key_index ∧
      (kmDemoB.free_keys.all (· ∈ kmDemoB.exhausted_keys) = true → st'.exhausted_keys = []) ∧
      (kmDemoB.free_keys.all (· ∈ kmDemoB.exhausted_keys) = false → st' = kmDemoB) :=
  acquire_returns_cursor_key_and_does_not_advance.1 kmDemoB rfl (by decide)

/-! ### Outbound-request path theorems (C1) -/

/-- `acquire` can only keep or clear the exhausted set; it never adds. -/
theorem getCurrentKey_exhausted_cases (st : KMState) (k : String) (b : Bool) (st' : KMState)
    (h : getCurrentKey st = .ok (k, b, st')) :
    st'.exhausted_keys = st.exhausted_keys ∨ st'.exhausted_keys = [] := by
  by_cases h1 : st.using_free_keys = true ∧ st.free_keys ≠ []
  · obtain ⟨ha, hb⟩ := h1
    by_cases hall : st.free_keys.all (· ∈ st.exhausted_keys) = true
    · simp [getCurrentKey, ha, hb, hall] at h
      obtain ⟨-, -, h3⟩ := h
      subst h3
      simp
    · simp [getCurrentKey, ha, hb, hall] at h
      obtain ⟨-, -, h3⟩ := h
      subst h3
      simp
  · by_cases h2 : st.paid_keys ≠ []
    · by_cases husing : st.using_free_keys = true
      · have hfe : st.free_keys = [] := by
          by_contra hcon
          exact h1 ⟨husing, hcon⟩
        by_cases hall : st.paid_keys.all (· ∈ st.exhausted_keys) = true
        · simp [getCurrentKey, hfe, h2, husing, hall] at h
          obtain ⟨-, -, h3⟩ := h
          subst h3
          simp
        · simp [getCurrentKey, hfe, h2, husing, hall] at h
          obtain ⟨-, -, h3⟩ := h
          subst h3
          simp
      · have husing' : st.using_free_keys = false := by
          cases hb : st.using_free_keys
          · rfl
          · exact absurd hb husing
        by_cases hall : st.paid_keys.all (· ∈ st.exhausted_keys) = true
        · simp [getCurrentKey, husing', h2, hall] at h
          obtain ⟨-, -, h3⟩ := h
          subst h3
          simp
        · simp [getCurrentKey, husing', h2, hall] at h
          obtain ⟨-, -, h3⟩ := h
          subst h3
          simp
    · simp [getCurrentKey, h1, h2] at h

/-- **C1 counterexample**.  On a request whose error message indicates
rate-limiting ("rate limit exceeded"), the code propagates the wrapped
error after exactly one outbound request and without marking any
credential exhausted, whereas the claimed bounded retry loop
(`specGetLLMResponse`, written from the spec's words) would retry with a
new credential and succeed. -/
theorem no_retry_on_rate_limit_counterexample :
    isRateLimitMessage "rate limit exceeded" = true ∧
    (getLLMResponseS (rateLimitedOracle 0) cfgDemo).1 =
      .error "Error getting LLM response: rate limit exceeded" ∧
    (getLLMResponseS (rateLimitedOracle 0) cfgDemo).2.2 = 1 ∧
    (getLLMResponseS (rateLimitedOracle 0) cfgDemo).2.1.api_key_manager =
      some kmDemoB ∧
    (specGetLLMResponse rateLimitedOracle cfgDemo).1 = .ok "A story" := by
  decide

/-- **C1** (corrected).  Every outbound request made through
`_get_llm_response` happens exactly once: key acquisition may raise before
any request (0 requests), otherwise exactly one request is made; *any*
error — including one whose message indicates rate-limiting — is wrapped
as `Error getting LLM response: <msg>` and propagated immediately, with no
retry and with `mark_key_exhausted` never invoked (the manager's exhausted
set is never extended on this path). -/
theorem llm_request_is_single_attempt (oracle : Except String String) (cfg : LLMConfigS) :
    (getLLMResponseS oracle cfg).2.2 ≤ 1 ∧
    (∀ e k cfg', cfgGetCurrentKey cfg = .ok (k, cfg') → oracle = .error e →
      getLLMResponseS oracle cfg = (.error ("Error getting LLM response: " ++ e), cfg', 1)) ∧
    (∀ km km', cfg.api_key_manager = some km →
      (getLLMResponseS oracle cfg).2.1.api_key_manager = some km' →
      km'.exhausted_keys = km.exhausted_keys ∨ km'.exhausted_keys = []) := by
  refine ⟨?_, ?_, ?_⟩
  · unfold getLLMResponseS getCompletionS
    rcases h : cfgGetCurrentKey cfg with e | ⟨k, cfg'⟩ <;> cases oracle <;> simp
  · intro e k cfg' hacq horacle
    subst horacle
    simp [getLLMResponseS, getCompletionS, hacq]
  · intro km km' hkm hout
    rcases hk : getCurrentKey km with e' | ⟨k', b', km''⟩
    · have hacq : cfgGetCurrentKey cfg = .error e' := by
        simp [cfgGetCurrentKey, hkm, hk]
      unfold getLLMResponseS getCompletionS at hout
      rw [hacq] at hout
      simp at hout
      rw [hkm] at hout
      cases hout
      exact Or.inl rfl
    · have hacq : cfgGetCurrentKey cfg = .ok (k', { cfg with api_key_manager := some km'' }) := by
        simp [cfgGetCurrentKey, hkm, hk]
      unfold getLLMResponseS getCompletionS at hout
      rw [hacq] at hout
      cases oracle <;> simp at hout <;>
        · subst hout
          exact getCurrentKey_exhausted_cases km k' b' km'' hk

/-- Witness for `llm_request_is_single_attempt` at a concrete
configuration and a concrete rate-limit error outcome. -/
theorem llm_request_is_single_attempt_witness :
    getLLMResponseS (Except.error "rate limit exceeded") cfgDemo =
      (.error "Error getting LLM response: rate limit exceeded",
        { api_key_manager := some kmDemoB, single_api_key := none }, 1) :=
  (llm_request_is_single_attempt (Except.error "rate limit exceeded") cfgDemo).2.1
    "rate limit exceeded"
    "f1" { api_key_manager := some kmDemoB, single_api_key := none } (by decide) rfl

/-! ### Evaluation-parser theorems (C4, C10) -/

/-- **C4 counterexample**.  The score-line pattern makes the `/10` suffix
mandatory, not optional: on per-criterion scores `{a: 10, b: 4}` together
with an explicit `Overall: 5` line (no `/10`), the overall line is ignored
entirely and `overall_score` becomes the computed mean `7.0`, not the
claimed explicit value `5`. -/
theorem explicit_overall_without_suffix_ignored_counterexample :
    parseEvaluation evalRespNoSuffix =
      { scores := [("a", 10), ("b", 4)], key_strengths := [],
        areas_for_improvement := [], overall_score := some 7 } ∧
    some (7 : ℚ) ≠ some (5 : ℚ) :=
  ⟨by decide, by decide⟩

/-- **C4** (corrected).  The accepted score-line pattern is
`- <Label>: <number>/10` with the `/10` suffix *required*; with the
explicit line `- Overall: 5/10`, the parsed record's `overall_score` is the
explicit `5` and not the computed mean `7.0` of `{a: 10, b: 4}`, while an
`- Overall: 5` line without the suffix contributes nothing at all. -/
theorem score_precedence_requires_suffix :
    parseEvaluation evalRespWithSuffix =
      { scores := [("a", 10), ("b", 4), ("overall", 5)], key_strengths := [],
        areas_for_improvement := [], overall_score := some 5 } ∧
    meanScores [("a", (10 : ℚ)), ("b", 4)] = 7 ∧
    (5 : ℚ) ≠ 7 ∧
    parseEvaluation "## Scores\n- Overall: 5" = emptyEvaluation :=
  ⟨by decide, by decide, by decide, by decide⟩

theorem parseEvalContent_overallWitnessed (cs : Option EvalSection) (ev : Evaluation)
    (line : String) (h : overallWitnessed ev) :
    overallWitnessed (parseEvalContent cs ev line) := by
  rcases cs with _ | sec
  · exact h
  cases sec
  case other => exact h
  case strengths =>
      simp only [parseEvalContent]
      split_ifs <;> exact h
  case improvements =>
      simp only [parseEvalContent]
      split_ifs <;> exact h
  case scores =>
      simp only [parseEvalContent]
      by_cases hs : strStartsWith "-" line = true
      · rw [if_pos hs]
        rcases hm : matchScoreLine line.toList with _ | ⟨label, v⟩
        · exact h
        · by_cases hov : strContainsSub "overall" (normalizeLabel label) = true
          · simp only [hov, if_true]
            intro v' hv'
            simp only [Option.some.injEq] at hv'
            subst hv'
            exact ⟨normalizeLabel label, hov, alistLookup_insert_self _ _ _⟩
          · simp only [hov, if_false]
            intro v' hv'
            obtain ⟨k, hk1, hk2⟩ := h v' hv'
            refine ⟨k, hk1, ?_⟩
            rw [alistLookup_insert_ne]
            · exact hk2
            · intro hEq
              rw [hEq] at hov
              exact hov hk1
      · rw [if_neg hs]
        exact h

theorem parseEvalFold_overallWitnessed (lines : List String)
    (acc : Option EvalSection × Evaluation) (h : overallWitnessed acc.2) :
    overallWitnessed ((lines.foldl (fun a l => parseEvalLine a.1 a.2 l) acc).2) := by
  induction lines generalizing acc with
  | nil => exact h
  | cons l rest ih =>
      apply ih
      show overallWitnessed (parseEvalLine acc.1 acc.2 l).2
      simp only [parseEvalLine]
      split_ifs <;> first
        | exact h
        | exact parseEvalContent_overallWitnessed _ _ _ h

/-- **C10** (confirmed).  Whenever the evaluation-parser loop records an
explicit overall score, the scores mapping itself contains an
overall-labelled entry with that value; the final record keeps both, so
the overall value sits among the per-criterion scores (it is one of the
values any mean over the mapping ranges over). -/
theorem overall_entry_recorded_in_scores (response : String) (v : ℚ)
    (h : (parseEvaluationLoop response).2.overall_score = some v) :
    ∃ k, strContainsSub "overall" k = true ∧
      alistLookup k (parseEvaluation response).scores = some v ∧
      (parseEvaluation response).overall_score = some v ∧
      v ∈ (parseEvaluation response).scores.map Prod.snd := by
  have hw : overallWitnessed (parseEvaluationLoop response).2 := by
    apply parseEvalFold_overallWitnessed
    intro v' hv'
    simp [emptyEvaluation] at hv'
  obtain ⟨k, hk1, hk2⟩ := hw v h
  have hfin : parseEvaluation response = (parseEvaluationLoop response).2 := by
    unfold parseEvaluation finalizeEvaluation
    rw [h]
  refine ⟨k, hk1, ?_, ?_, ?_⟩
  · rw [hfin]; exact hk2
  · rw [hfin]; exact h
  · rw [hfin]; exact List.mem_map_of_mem Prod.snd (alistLookup_mem hk2)

/-- Witness for `overall_entry_recorded_in_scores` at a concrete response
with an explicit `Overall Score: 8/10` line. -/
theorem overall_entry_recorded_in_scores_witness :
    ∃ k, strContainsSub "overall" k = true ∧
      alistLookup k (parseEvaluation "## Scores\n- Overall Score: 8/10").scores = some 8 ∧
      (parseEvaluation "## Scores\n- Overall Score: 8/10").overall_score = some 8 ∧
      (8 : ℚ) ∈ (parseEvaluation "## Scores\n- Overall Score: 8/10").scores.map Prod.snd :=
  overall_entry_recorded_in_scores "## Scores\n- Overall Score: 8/10" 8 (by decide)

/-! ### Pitch-improvement threshold theorems (C3) -/

theorem improvePitchesLoop_spec (improver : PitchD → Evaluation → Except String PitchD) :
    ∀ (l : List (PitchD × Evaluation)) (acc out : List PitchD),
      improvePitchesLoop improver l acc = .ok out →
      out.length = acc.length + l.length ∧
      (∀ i, i < acc.length → out.get? i = acc.get? i) ∧
      (∀ i p e, l.get? i = some (p, e) →
        (ratLt (avgScore e) thresholdScore = true →
          ∃ q, improver p e = .ok q ∧ out.get? (acc.length + i) = some q) ∧
        (ratLt (avgScore e) thresholdScore = false →
          out.get? (acc.length + i) = some p)) := by
  intro l
  induction l with
  | nil =>
      intro acc out h
      simp only [improvePitchesLoop, Except.ok.injEq] at h
      subst h
      refine ⟨by simp, fun i _ => rfl, fun i p e hl => by simp at hl⟩
  | cons pe rest ih =>
      obtain ⟨p, e⟩ := pe
      intro acc out h
      simp only [improvePitchesLoop] at h
      by_cases hc : ratLt (avgScore e) thresholdScore = true
      · rw [if_pos hc] at h
        rcases himp : improver p e with err | q
        · rw [himp] at h
          cases h
        · rw [himp] at h
          obtain ⟨hlen, hpre, hidx⟩ := ih (acc ++ [q]) out h
          refine ⟨?_, ?_, ?_⟩
          · rw [hlen]
            simp
            omega
          · intro i hi
            rw [hpre i (by simp; omega)]
            exact List.get?_append (by omega)
          · intro i p' e' hl
            cases i with
            | zero =>
                simp only [List.get?_cons_zero, Option.some.injEq, Prod.mk.injEq] at hl
                obtain ⟨hp', he'⟩ := hl
                subst hp'
                subst he'
                constructor
                · intro _
                  refine ⟨q, himp, ?_⟩
                  have := hpre acc.length (by simp)
                  rw [Nat.add_zero, this, List.get?_concat_length]
                · intro hfalse
                  rw [hfalse] at hc
                  cases hc
            | succ i =>
                have hrec := hidx i p' e' (by simpa using hl)
                have harith : (acc ++ [q]).length + i = acc.length + (i + 1) := by
                  simp
                  omega
                rw [harith] at hrec
                exact hrec
      · have hc' : ratLt (avgScore e) thresholdScore = false := by
          cases hb : ratLt (avgScore e) thresholdScore
          · rfl
          · exact absurd hb hc
        rw [if_neg hc] at h
        obtain ⟨hlen, hpre, hidx⟩ := ih (acc ++ [p]) out h
        refine ⟨?_, ?_, ?_⟩
        · rw [hlen]
          simp
          omega
        · intro i hi
          rw [hpre i (by simp; omega)]
          exact List.get?_append (by omega)
        · intro i p' e' hl
          cases i with
          | zero =>
              simp only [List.get?_cons_zero, Option.some.injEq, Prod.mk.injEq] at hl
              obtain ⟨hp', he'⟩ := hl
              subst hp'
              subst he'
              constructor
              · intro htrue
                rw [htrue] at hc'
                cases hc'
              · intro _
                have := hpre acc.length (by simp)
                rw [Nat.add_zero, this, List.get?_concat_length]
          | succ i =>
              have hrec := hidx i p' e' (by simpa using hl)
              have harith : (acc ++ [p]).length + i = acc.length + (i + 1) := by
                simp
                omega
              rw [harith] at hrec
              exact hrec

/-- **C3** (confirmed).  In `_improve_pitches`, for every `(pitch,
evaluation)` pair from `zip(pitches, evaluations)`, the average is the
explicit `overall_score` when present and otherwise the arithmetic mean of
`evaluation.scores`; the improvement collaborator is invoked and its output
substituted exactly when the average is strictly below the 7.5 threshold,
the pitch being passed through unchanged otherwise. -/
theorem improvement_threshold (improver : PitchD → Evaluation → Except String PitchD)
    (pitches : List PitchD) (evaluations : List Evaluation) (out : List PitchD)
    (h : improvePitches improver pitches evaluations = .ok out) :
    out.length = (pitches.zip evaluations).length ∧
    ∀ i p e, (pitches.zip evaluations).get? i = some (p, e) →
      (avgScore e < thresholdScore →
        ∃ q, improver p e = .ok q ∧ out.get? i = some q) ∧
      (¬ avgScore e < thresholdScore → out.get? i = some p) := by
  obtain ⟨hlen, -, hidx⟩ :=
    improvePitchesLoop_spec improver (pitches.zip evaluations) [] out h
  refine ⟨by simpa using hlen, ?_⟩
  intro i p e hl
  obtain ⟨ht, hf⟩ := hidx i p e hl
  constructor
  · intro hlt
    have := ht ((ratLt_iff_lt _ _).mpr hlt)
    simpa using this
  · intro hnlt
    have hfalse : ratLt (avgScore e) thresholdScore = false := by
      cases hb : ratLt (avgScore e) thresholdScore
      · rfl
      · exact absurd ((ratLt_iff_lt _ _).mp hb) hnlt
    simpa using hf hfalse

/-- Witness for `improvement_threshold`: a pitch with average exactly 7.5
passes through unchanged while a pitch with average 7.49 is replaced by
the improver's output. -/
theorem improvement_threshold_witness :
    [demoPitchA, demoImprovedPitch].length =
      ([demoPitchA, demoPitchB].zip [demoEval75, demoEval749]).length ∧
    ∀ i p e, ([demoPitchA, demoPitchB].zip [demoEval75, demoEval749]).get? i = some (p, e) →
      (avgScore e < thresholdScore →
        ∃ q, demoImprover p e = .ok q ∧ [demoPitchA, demoImprovedPitch].get? i = some q) ∧
      (¬ avgScore e < thresholdScore → [demoPitchA, demoImprovedPitch].get? i = some p) :=
  improvement_threshold demoImprover [demoPitchA, demoPitchB] [demoEval75, demoEval749]
    [demoPitchA, demoImprovedPitch] (by decide)

/-! ### Winner-resolution theorems (C5) -/

theorem fallbackScanFrom_spec (rest : List Evaluation) :
    ∀ (hs : ℚ) (hi i : Nat),
      (fallbackScanFrom rest hs hi i).2.2 = i + rest.length ∧
      (((fallbackScanFrom rest hs hi i).1 = hs ∧ (fallbackScanFrom rest hs hi i).2.1 = hi ∧
          ∀ j e, rest.get? j = some e → voterScore e ≤ hs) ∨
        (∃ j e, rest.get? j = some e ∧
          (fallbackScanFrom rest hs hi i).2.1 = i + j ∧
          (fallbackScanFrom rest hs hi i).1 = voterScore e ∧
          hs < voterScore e ∧
          (∀ j' e', rest.get? j' = some e' → voterScore e' ≤ voterScore e) ∧
          (∀ j' e', j' < j → rest.get? j' = some e' → voterScore e' < voterScore e))) := by
  induction rest with
  | nil =>
      intro hs hi i
      exact ⟨by simp [fallbackScanFrom], Or.inl ⟨rfl, rfl, by simp⟩⟩
  | cons e0 rest ih =>
      intro hs hi i
      have hstep : fallbackScanFrom (e0 :: rest) hs hi i =
          if ratLt hs (voterScore e0) then fallbackScanFrom rest (voterScore e0) i (i + 1)
          else fallbackScanFrom rest hs hi (i + 1) := by
        simp only [fallbackScanFrom, List.foldl_cons]
        by_cases hc : ratLt hs (voterScore e0) = true <;> simp [hc]
      by_cases hc : ratLt hs (voterScore e0) = true
      · rw [hstep, if_pos hc]
        have hlt : hs < voterScore e0 := (ratLt_iff_lt _ _).mp hc
        obtain ⟨hcount, hcases⟩ := ih (voterScore e0) i (i + 1)
        refine ⟨by rw [hcount]; simp; omega, ?_⟩
        rcases hcases with ⟨h1, h2, h3⟩ | ⟨j, e, hj, hhi, hhs, hlt2, hall, hstrict⟩
        · right
          refine ⟨0, e0, by simp, by rw [h2]; omega, by rw [h1], hlt, ?_, ?_⟩
          · intro j' e' hj'
            cases j' with
            | zero =>
                simp only [List.get?_cons_zero, Option.some.injEq] at hj'
                subst hj'
                exact le_refl _
            | succ j' => exact h3 j' e' (by simpa using hj')
          · intro j' e' hj'lt _
            exact absurd hj'lt (Nat.not_lt_zero _)
        · right
          refine ⟨j + 1, e, by simpa using hj, by rw [hhi]; omega, hhs,
            lt_trans hlt hlt2, ?_, ?_⟩
          · intro j' e' hj'
            cases j' with
            | zero =>
                simp only [List.get?_cons_zero, Option.some.injEq] at hj'
                subst hj'
                exact le_of_lt hlt2
            | succ j' => exact hall j' e' (by simpa using hj')
          · intro j' e' hj'lt hj'
            cases j' with
            | zero =>
                simp only [List.get?_cons_zero, Option.some.injEq] at hj'
                subst hj'
                exact hlt2
            | succ j' => exact hstrict j' e' (by omega) (by simpa using hj')
      · have hle : voterScore e0 ≤ hs :=
          not_lt.mp (fun hlt => hc ((ratLt_iff_lt _ _).mpr hlt))
        rw [hstep, if_neg hc]
        obtain ⟨hcount, hcases⟩ := ih hs hi (i + 1)
        refine ⟨by rw [hcount]; simp; omega, ?_⟩
        rcases hcases with ⟨h1, h2, h3⟩ | ⟨j, e, hj, hhi, hhs, hlt2, hall, hstrict⟩
        · left
          refine ⟨h1, h2, ?_⟩
          intro j' e' hj'
          cases j' with
          | zero =>
              simp only [List.get?_cons_zero, Option.some.injEq] at hj'
              subst hj'
              exact hle
          | succ j' => exact h3 j' e' (by simpa using hj')
        · right
          refine ⟨j + 1, e, by simpa using hj, by rw [hhi]; omega, hhs, hlt2, ?_, ?_⟩
          · intro j' e' hj'
            cases j' with
            | zero =>
                simp only [List.get?_cons_zero, Option.some.injEq] at hj'
                subst hj'
                exact le_trans hle (le_of_lt hlt2)
            | succ j' => exact hall j' e' (by simpa using hj')
          · intro j' e' hj'lt hj'
            cases j' with
            | zero =>
                simp only [List.get?_cons_zero, Option.some.injEq] at hj'
                subst hj'
                exact lt_of_le_of_lt hle hlt2
            | succ j' => exact hstrict j' e' (by omega) (by simpa using hj')

/-- **C5** (confirmed).  Winner resolution: the Stage Controller matches
the returned winner title against candidate titles by exact string
equality, taking the first (non-empty) match; when no candidate matches
and the list is non-empty it deterministically selects the first candidate
in list order; the voter's own internal fallback — used when no winner was
parsed at all — instead returns the title of the highest-scoring candidate
(earliest index on ties), provided scores are non-negative as produced by
the evaluation parser. -/
theorem winner_resolution_policies :
    (∀ (t : String) (ps : List PitchD) (p : PitchD),
      ps.find? (fun q => alistGetD "title" "" q = t) = some p → p ≠ [] →
      selectWinnerPitch t ps = p) ∧
    (∀ (t : String) (ps : List PitchD),
      (∀ p ∈ ps, alistGetD "title" "" p ≠ t) → ps ≠ [] →
      selectWinnerPitch t ps = ps.headD []) ∧
    (∀ (ps : List PitchD) (evals : List Evaluation), evals ≠ [] →
      (∀ e ∈ evals, 0 ≤ voterScore e) →
      ∃ i e, evals.get? i = some e ∧
        (∀ j e', evals.get? j = some e' → voterScore e' ≤ voterScore e) ∧
        (∀ j e', j < i → evals.get? j = some e' → voterScore e' < voterScore e) ∧
        selectFallbackWinner ps evals =
          (ps.get? i).map (fun p => alistGetD "title" ("Pitch " ++ toString (i + 1)) p)) := by
  refine ⟨?_, ?_, ?_⟩
  · intro t ps p hfind hne
    have hempty : p.isEmpty = false := by
      cases p with
      | nil => exact absurd rfl hne
      | cons a l => rfl
    simp only [selectWinnerPitch, hfind, Option.getD_some]
    rw [if_neg]
    intro hcon
    rw [hempty] at hcon
    exact Bool.false_ne_true hcon.1
  · intro t ps hnomatch hne
    have hfind : ps.find? (fun q => alistGetD "title" "" q = t) = none := by
      rw [List.find?_eq_none]
      intro x hx
      simpa using hnomatch x hx
    simp only [selectWinnerPitch, hfind, Option.getD_none]
    rw [if_pos ⟨rfl, hne⟩]
  · intro ps evals hne hnonneg
    obtain ⟨-, hcases⟩ := fallbackScanFrom_spec evals (mkRat (-1) 1) 0 0
    have hneg1 : (mkRat (-1) 1 : ℚ) = -1 := by
      rw [Rat.mkRat_eq_divInt, Rat.divInt_eq_div]
      norm_num
    rcases hcases with ⟨-, -, h3⟩ | ⟨j, e, hj, hhi, -, -, hall, hstrict⟩
    · obtain ⟨e0, rest, rfl⟩ : ∃ e0 rest, evals = e0 :: rest := by
        cases evals with
        | nil => exact absurd rfl hne
        | cons a l => exact ⟨a, l, rfl⟩
      have h0 := h3 0 e0 (by simp)
      rw [hneg1] at h0
      have := hnonneg e0 (by simp)
      linarith
    · refine ⟨j, e, hj, hall, hstrict, ?_⟩
      have hfs : (fallbackScan evals).2.1 = j := by
        rw [fallbackScan, hhi]
        omega
      simp only [selectFallbackWinner, hfs]

/-! ### Pitch-parser theorems (C8, C9) -/

theorem pitchGateFold_mem (l : List (Nat × List Char)) (acc : List PitchD) (r : PitchD) :
    (r ∈ l.foldl
      (fun acc ib =>
        let p := mkPitch ib.1 ib.2
        if 4 ≤ missingSectionsCount p then acc else acc ++ [p])
      acc) ↔
    (r ∈ acc ∨ ∃ ib ∈ l, r = mkPitch ib.1 ib.2 ∧
      missingSectionsCount (mkPitch ib.1 ib.2) < 4) := by
  induction l generalizing acc with
  | nil => simp
  | cons ib rest ih =>
      simp only [List.foldl_cons]
      by_cases hc : 4 ≤ missingSectionsCount (mkPitch ib.1 ib.2)
      · rw [if_pos hc, ih]
        constructor
        · rintro (h0 | ⟨jb, hjb, hr, hc2⟩)
          · exact Or.inl h0
          · exact Or.inr ⟨jb, List.mem_cons_of_mem _ hjb, hr, hc2⟩
        · rintro (h0 | ⟨jb, hjb, hr, hc2⟩)
          · exact Or.inl h0
          · rcases List.mem_cons.mp hjb with rfl | hjb'
            · omega
            · exact Or.inr ⟨jb, hjb', hr, hc2⟩
      · rw [if_neg hc, ih]
        constructor
        · rintro (h0 | ⟨jb, hjb, hr, hc2⟩)
          · rcases List.mem_append.mp h0 with h0' | h0'
            · exact Or.inl h0'
            · refine Or.inr ⟨ib, List.mem_cons_self _ _, ?_, by omega⟩
              simpa using h0'
          · exact Or.inr ⟨jb, List.mem_cons_of_mem _ hjb, hr, hc2⟩
        · rintro (h0 | ⟨jb, hjb, hr, hc2⟩)
          · exact Or.inl (List.mem_append.mpr (Or.inl h0))
          · rcases List.mem_cons.mp hjb with rfl | hjb'
            · exact Or.inl (List.mem_append.mpr (Or.inr (by simpa using hr)))
            · exact Or.inr ⟨jb, hjb', hr, hc2⟩

/-- **C8** (confirmed).  The validity gate of the pitch parser: a parsed
record in which at least 4 of the 5 declared fields carry the
`"[Missing]"` sentinel is excluded from the output list, and a record in
which exactly 3 of the 5 fields are sentinel-valued is retained. -/
theorem pitch_validity_gate (response : String) (i : Nat)
    (h : i < (pitchBlocks response).length) :
    (4 ≤ missingSectionsCount (mkPitch i ((pitchBlocks response).get ⟨i, h⟩)) →
      mkPitch i ((pitchBlocks response).get ⟨i, h⟩) ∉ parsePitchesResponse response) ∧
    (missingSectionsCount (mkPitch i ((pitchBlocks response).get ⟨i, h⟩)) = 3 →
      mkPitch i ((pitchBlocks response).get ⟨i, h⟩) ∈ parsePitchesResponse response) := by
  constructor
  · intro hc hmem
    rw [parsePitchesResponse, pitchGateFold_mem] at hmem
    rcases hmem with h0 | ⟨jb, hjb, hreq, hc2⟩
    · exact absurd h0 (List.not_mem_nil _)
    · rw [← hreq] at hc2
      omega
  · intro hc
    rw [parsePitchesResponse, pitchGateFold_mem]
    right
    refine ⟨(i, (pitchBlocks response).get ⟨i, h⟩), ?_, rfl, ?_⟩
    · rw [List.mk_mem_enum_iff_getElem?]
      simp [List.getElem?_eq_getElem h]
    · show missingSectionsCount (mkPitch i ((pitchBlocks response).get ⟨i, h⟩)) < 4
      omega

/-- Witness for `pitch_validity_gate`: in the concrete two-block response,
the record of block 1 (3 sentinel fields) is retained and the record of
block 2 (4 sentinel fields) is excluded. -/
theorem pitch_validity_gate_witness :
    mkPitch 0 ((pitchBlocks pitchRespGate).get ⟨0, by decide⟩) ∈
      parsePitchesResponse pitchRespGate ∧
    mkPitch 1 ((pitchBlocks pitchRespGate).get ⟨1, by decide⟩) ∉
      parsePitchesResponse pitchRespGate :=
  ⟨(pitch_validity_gate pitchRespGate 0 (by decide)).2 (by decide),
   (pitch_validity_gate pitchRespGate 1 (by decide)).1 (by decide)⟩

/-- **C9 counterexample**.  On a block with no `**Title:**` marker the
title cannot be extracted, yet the returned record's title is
`"Untitled Pitch 1"`, not the `"[Missing]"` sentinel the claim requires
for every unextracted field. -/
theorem pitch_title_default_counterexample :
    parsePitchesResponse pitchRespNoTitle =
      [[("title", "Untitled Pitch 1"), ("hook", "H"), ("premise", "P"),
        ("main_conflict", "C"), ("unique_twist", "T")]] ∧
    searchTitle ((pitchBlocks pitchRespNoTitle).headD []) = none ∧
    ("Untitled Pitch 1" : String) ≠ "[Missing]" :=
  ⟨by decide, by decide, by decide⟩

/-- **C9** (corrected).  Every record returned by the pitch parser
contains all five declared fields; `hook`, `premise`, `main_conflict` and
`unique_twist` are set to the `"[Missing]"` sentinel when they cannot be
extracted, while an unextractable `title` is set to the numbered default
`"Untitled Pitch N"` instead of the sentinel. -/
theorem pitch_fields_total (response : String) (r : PitchD)
    (h : r ∈ parsePitchesResponse response) :
    (alistLookup "title" r).isSome ∧ (alistLookup "hook" r).isSome ∧
    (alistLookup "premise" r).isSome ∧ (alistLookup "main_conflict" r).isSome ∧
    (alistLookup "unique_twist" r).isSome ∧
    ∃ i block, (i, block) ∈ (pitchBlocks response).enum ∧ r = mkPitch i block ∧
      (searchHook block = none → alistLookup "hook" r = some "[Missing]") ∧
      (searchPremise block = none → alistLookup "premise" r = some "[Missing]") ∧
      (searchConflict block = none → alistLookup "main_conflict" r = some "[Missing]") ∧
      (searchTwist block = none → alistLookup "unique_twist" r = some "[Missing]") ∧
      (searchTitle block = none → alistLookup "title" r = some (untitledDefault i)) := by
  rw [parsePitchesResponse, pitchGateFold_mem] at h
  rcases h with h0 | ⟨⟨i, block⟩, hib, hr, -⟩
  · exact absurd h0 (List.not_mem_nil _)
  · subst hr
    refine ⟨?_, ?_, ?_, ?_, ?_, i, block, hib, rfl, ?_, ?_, ?_, ?_, ?_⟩
    · cases hx : searchTitle block <;> simp [mkPitch, alistLookup, hx]
    · cases hx : searchHook block <;> cases hy : searchTitle block <;>
        simp [mkPitch, alistLookup, hx, hy]
    · cases hx : searchPremise block <;> cases hy : searchTitle block <;>
        cases hz : searchHook block <;> simp [mkPitch, alistLookup, hx, hy, hz]
    · simp only [mkPitch, alistLookup]
      cases hx : searchConflict block <;> simp
    · simp only [mkPitch, alistLookup]
      cases hx : searchTwist block <;> simp
    · intro hx
      simp [mkPitch, alistLookup, hx]
    · intro hx
      simp [mkPitch, alistLookup, hx]
    · intro hx
      simp [mkPitch, alistLookup, hx]
    · intro hx
      simp [mkPitch, alistLookup, hx]
    · intro hx
      simp [mkPitch, alistLookup, hx]

/-- Witness for `pitch_fields_total` at a concrete record with three
sentinel fields. -/
theorem pitch_fields_total_witness :
    (alistLookup "title" (mkPitch 0 ((pitchBlocks pitchRespGate).headD []))).isSome ∧
    (alistLookup "hook" (mkPitch 0 ((pitchBlocks pitchRespGate).headD []))).isSome ∧
    (alistLookup "premise" (mkPitch 0 ((pitchBlocks pitchRespGate).headD []))).isSome ∧
    (alistLookup "main_conflict" (mkPitch 0 ((pitchBlocks pitchRespGate).headD []))).isSome ∧
    (alistLookup "unique_twist" (mkPitch 0 ((pitchBlocks pitchRespGate).headD []))).isSome ∧
    (∃ i block, (i, block) ∈ (pitchBlocks pitchRespGate).enum ∧
      mkPitch 0 ((pitchBlocks pitchRespGate).headD []) = mkPitch i block ∧
      (searchHook block = none →
        alistLookup "hook" (mkPitch 0 ((pitchBlocks pitchRespGate).headD [])) =
          some "[Missing]") ∧
      (searchPremise block = none →
        alistLookup "premise" (mkPitch 0 ((pitchBlocks pitchRespGate).headD [])) =
          some "[Missing]") ∧
      (searchConflict block = none →
        alistLookup "main_conflict" (mkPitch 0 ((pitchBlocks pitchRespGate).headD [])) =
          some "[Missing]") ∧
      (searchTwist block = none →
        alistLookup "unique_twist" (mkPitch 0 ((pitchBlocks pitchRespGate).headD [])) =
          some "[Missing]") ∧
      (searchTitle block = none →
        alistLookup "title" (mkPitch 0 ((pitchBlocks pitchRespGate).headD [])) =
          some (untitledDefault i))) :=
  pitch_fields_total pitchRespGate (mkPitch 0 ((pitchBlocks pitchRespGate).headD []))
    (by decide)

/-- Witness for `winner_resolution_policies`: exact match, first-candidate
fallback and highest-score voter fallback at concrete candidates. -/
theorem winner_resolution_policies_witness :
    selectWinnerPitch "B" [demoPitchA, demoPitchB] = demoPitchB ∧
    selectWinnerPitch "Z" [demoPitchA, demoPitchB] = demoPitchA ∧
    (∃ i e, [demoEval3, demoEval9].get? i = some e ∧
      (∀ j e', [demoEval3, demoEval9].get? j = some e' → voterScore e' ≤ voterScore e) ∧
      (∀ j e', j < i → [demoEval3, demoEval9].get? j = some e' → voterScore e' < voterScore e) ∧
      selectFallbackWinner [demoPitchA, demoPitchB] [demoEval3, demoEval9] =
        ([demoPitchA, demoPitchB].get? i).map
          (fun p => alistGetD "title" ("Pitch " ++ toString (i + 1)) p)) := by
  refine ⟨?_, ?_, ?_⟩
  · exact winner_resolution_policies.1 "B" [demoPitchA, demoPitchB] demoPitchB
      (by decide) (by decide)
  · have := winner_resolution_policies.2.1 "Z" [demoPitchA, demoPitchB] (by decide) (by decide)
    simpa using this
  · exact winner_resolution_policies.2.2 [demoPitchA, demoPitchB] [demoEval3, demoEval9]
      (by decide) (by decide)

/-! ### Workflow error-semantics theorems (C2) -/

/-- **C2 counterexample**.  The genre-selection collaborator raises, yet
the run completes: the caller receives a successful artifact and the final
state is COMPLETED, not ERROR — the exception was silently swallowed
inside `_determine_genre_tone_themes` (and `State` stores no error
message: it has no error field at all). -/
theorem collaborator_exception_swallowed_counterexample :
    exEnvSwallow.genreVibe none none none = .error "boom" ∧
    (generateIdea exEnvSwallow none none none none).2.stage = GenerationStage.completed ∧
    (generateIdea exEnvSwallow none none none none).1 =
      .ok ("out.md",
        { genre := "Science Fiction", subgenre := "Cyberpunk",
          tone := "Hopeful yet cautious",
          themes := ["Technology", "Humanity", "Progress"],
          selected_pitch := demoPitchA, trope_analysis := [],
          output_path := "out.md" }) :=
  ⟨by decide, by decide, by decide⟩

/-- **C2** (corrected).  Whenever `generate_idea` raises, it has set the
workflow state's stage to ERROR and re-raised the collaborator's exception
to its caller; but an exception of the genre-selection collaborator is
swallowed inside `_determine_genre_tone_themes` and replaced by the
hard-coded fallback, so the run proceeds as if the fallback had been
returned (and no message is stored: the `State` record has no error
field). -/
theorem workflow_error_semantics (env : Env) (g t : Option String)
    (th : Option (List String)) (o : Option String) :
    (∀ (m : String) (st' : State), generateIdea env g t th o = (.error m, st') →
      st'.stage = GenerationStage.error) ∧
    (∀ e : String, env.genreVibe g t th = .error e →
      generateIdea env g t th o =
        generateIdea { env with genreVibe := fun _ _ _ => .ok fallbackGenreData } g t th o) := by
  constructor
  · intro m st' h
    unfold generateIdea at h
    dsimp only at h
    repeat' split at h
    all_goals
      injection h with h1 h2
    all_goals
      first
        | (subst h2; rfl)
        | cases h1
  · intro e he
    unfold generateIdea determineGenreToneThemes
    rw [he]

/-- Witness for `workflow_error_semantics`: when the pitch-generation
collaborator raises, the final state's stage is ERROR. -/
theorem workflow_error_semantics_witness :
    (generateIdea exEnvPitchFail none none none none).2.stage = GenerationStage.error :=
  (workflow_error_semantics exEnvPitchFail none none none none).1
    "No valid pitches were generated"
    (generateIdea exEnvPitchFail none none none none).2 (by decide)

end NovelWriter

